import Mathlib

/-!
# gpuvis: `src/trace-cmd/trace-read.h`

A shallow embedding of the declarations of `trace-read.h` and proofs about them.

Conventions of the embedding.

* `uint32_t` values are natural numbers below `2 ^ 32`; a conversion to
  `uint32_t` is written with an explicit `% 2 ^ 32`.  `int` and `int64_t` are
  integers.
* `std::unordered_map< K, V >` is a list of nodes `(key, value)`.  A node is
  never moved or removed by the operations the header uses (`find`, `emplace`,
  assignment through an iterator), so the position of a node in the list plays
  the part of its address: an iterator is a position, `end()` is `none`.
* A `V *` returned by `util_umap` is `Option Nat`: `none` is `NULL`, `some i`
  is the address of the value stored in node `i`.
* `const char *` is `Option String` (`none` is `NULL`).
-/

namespace Gpuvis

/-! ## INVALID_ID -/

/-- The conversion of an `int` to `uint32_t`. -/
def to_uint32 (x : Int) : Nat := (x % 2 ^ 32).toNat

/-- Source: `#define INVALID_ID ( ( uint32_t )-1 )` -/
def INVALID_ID : Nat := to_uint32 (-1)

/-- Source: `inline bool is_valid_id( uint32_t id )` -/
def is_valid_id (id : Nat) : Bool := id != INVALID_ID

/-! ## std::unordered_map -/

/-- The container `std::unordered_map< K, V >`: its nodes, oldest first. -/
structure unordered_map (K V : Type) where
  nodes : List (K × V)
deriving DecidableEq, Repr

namespace unordered_map

variable {K V : Type}

/-- Position of the first node whose key is `key`. -/
def find_node [DecidableEq K] (key : K) : List (K × V) → Option Nat
  | [] => none
  | e :: rest => if e.1 = key then some 0 else (find_node key rest).map Nat.succ

/-- Store `val` in the value of node `i`, keeping its key. -/
def assign_node (val : V) : Nat → List (K × V) → List (K × V)
  | _, [] => []
  | 0, e :: rest => (e.1, val) :: rest
  | i + 1, e :: rest => e :: assign_node val i rest

/-- Library call `m.find( key )`: an iterator to the node of `key`, or `end()` (`none`). -/
def find [DecidableEq K] (m : unordered_map K V) (key : K) : Option Nat :=
  find_node key m.nodes

/-- Library call `m.emplace( key, val )`: when no node has the key a node is added; the
result is the map, the iterator `first` and the flag `second` (true when the
insertion took place). -/
def emplace [DecidableEq K] (m : unordered_map K V) (key : K) (val : V) :
    unordered_map K V × Nat × Bool :=
  match m.find key with
  | some i => (m, i, false)
  | none => (⟨m.nodes ++ [(key, val)]⟩, m.nodes.length, true)

/-- The assignment `it->second = val` through the iterator `it`. -/
def assign (m : unordered_map K V) (it : Nat) (val : V) : unordered_map K V :=
  ⟨assign_node val it m.nodes⟩

/-- Library call `m.size()` -/
def size (m : unordered_map K V) : Nat := m.nodes.length

/-- Library call `m.count( key )`: the number of nodes whose key is `key`. -/
def count [DecidableEq K] (m : unordered_map K V) (key : K) : Nat :=
  (m.nodes.filter (fun e => decide (e.1 = key))).length

/-- The invariant of the container: no two nodes have the same key. -/
def WF (m : unordered_map K V) : Prop := (m.nodes.map Prod.fst).Nodup

instance [DecidableEq K] (m : unordered_map K V) : Decidable m.WF :=
  inferInstanceAs (Decidable (m.nodes.map Prod.fst).Nodup)

end unordered_map

/-! ## util_umap -/

/-- Source: `template < typename K, typename V > class util_umap` -/
structure util_umap (K V : Type) where
  m_map : unordered_map K V
deriving DecidableEq, Repr

namespace util_umap

variable {K V : Type}

/-- Source: `util_umap()`: the empty map. -/
def empty : util_umap K V := ⟨⟨[]⟩⟩

/-- Source: `V *get_val( const K key, const V &defval )`: the map after the call and
the returned pointer `&res.first->second`. -/
def get_val_defval [DecidableEq K] (m : util_umap K V) (key : K) (defval : V) :
    util_umap K V × Option Nat :=
  let res := m.m_map.emplace key defval
  (⟨res.1⟩, some res.2.1)

/-- Source: `V *get_val( const K key )`: the map after the call and the returned
pointer (`none` is `NULL`). -/
def get_val [DecidableEq K] (m : util_umap K V) (key : K) : util_umap K V × Option Nat :=
  let i := m.m_map.find key
  match i with
  | some it => (m, some it)
  | none => (m, none)

/-- Source: `void set_val( const K key, const V &val )` -/
def set_val [DecidableEq K] (m : util_umap K V) (key : K) (val : V) : util_umap K V :=
  let res := m.m_map.emplace key val
  if !res.2.2 then ⟨res.1.assign res.2.1 val⟩ else ⟨res.1⟩

/-- Reading through a `V *` obtained from the map: `none` when the pointer is
`NULL` or addresses no node. -/
def deref (m : util_umap K V) (p : Option Nat) : Option V :=
  p.bind (fun i => (m.m_map.nodes[i]?).map Prod.snd)

end util_umap

/-! ## StrPool -/

/-- Source: `class StrPool`: `m_pool` maps a 32-bit hash value to the interned string. -/
structure StrPool where
  m_pool : util_umap Nat String
deriving DecidableEq, Repr

namespace StrPool

/-- The bytes named by the arguments `( str, len )` of `getstr`: the whole
string for the default `len = ( size_t )-1` (`none`), its first `len`
characters otherwise. -/
def content (str : String) (len : Option Nat) : String :=
  match len with
  | none => str
  | some n => str.take n

/-- Modelled from the spec: `StrPool::getstr` is declared in the header, its
body is outside it, and the hash function it uses is not in the header either
(it is the parameter `hash`, reduced to 32 bits).  Section 4.1: the bytes are
hashed to a 32-bit value, the pool keeps one stored copy per hash value, and
the call returns a reference to the stored copy for that hash, storing the given
bytes when there is none.  The result is the pool after the call and the
address of the stored copy. -/
def getstr (hash : String → Nat) (p : StrPool) (str : String) (len : Option Nat) :
    StrPool × Option Nat :=
  let hashval := hash (content str len) % 2 ^ 32
  let res := p.m_pool.get_val_defval hashval (content str len)
  (⟨res.1⟩, res.2)

/-- Modelled from the spec: `StrPool::findstr` is declared in the header, its
body is outside it.  Section 4.1: the interned string for that hash, or a
not-found signal (`none`).  The result is the address of the stored copy. -/
def findstr (p : StrPool) (hashval : Nat) : Option Nat :=
  (p.m_pool.get_val (hashval % 2 ^ 32)).2

/-- The text stored at an address returned by `getstr` or `findstr`. -/
def text (p : StrPool) (ref : Option Nat) : Option String := p.m_pool.deref ref

end StrPool

/-! ## trace_info_t -/

/-- Source: `struct trace_info_t` -/
structure trace_info_t where
  cpus : Nat
  file : String
  uname : String
  timestamp_in_us : Bool
  cpustats : List String
  tgid_pids : util_umap Int (List Int)
  pid_tgid_map : util_umap Int Int
  pid_comm_map : util_umap Int (Option String)
deriving DecidableEq, Repr

/-- Source: `struct event_field_t` -/
structure event_field_t where
  key : Option String
  value : Option String
deriving DecidableEq, Repr

/-! ## trace_flag_type_t -/

/-- Source: `TRACE_FLAG_FTRACE_PRINT = 0x100` -/
def TRACE_FLAG_FTRACE_PRINT : Nat := 0x100
/-- Source: `TRACE_FLAG_IS_VBLANK = 0x200` -/
def TRACE_FLAG_IS_VBLANK : Nat := 0x200
/-- Source: `TRACE_FLAG_IS_TIMELINE = 0x400` -/
def TRACE_FLAG_IS_TIMELINE : Nat := 0x400
/-- Source: `TRACE_FLAG_IS_SW_QUEUE = 0x1000` -/
def TRACE_FLAG_IS_SW_QUEUE : Nat := 0x1000
/-- Source: `TRACE_FLAG_IS_HW_QUEUE = 0x2000` -/
def TRACE_FLAG_IS_HW_QUEUE : Nat := 0x2000
/-- Source: `TRACE_FLAG_FENCE_SIGNALED = 0x4000` -/
def TRACE_FLAG_FENCE_SIGNALED : Nat := 0x4000

/-! ## trace_event_t -/

/-- Source: `struct trace_event_t` -/
structure trace_event_t where
  is_filtered_out : Bool
  pid : Int
  crtc : Int
  id : Nat
  cpu : Nat
  flags : Nat
  context : Nat
  seqno : Nat
  id_start : Nat
  graph_row_id : Nat
  duration : Nat
  color : Nat
  ts : Int
  comm : Option String
  system : Option String
  name : Option String
  timeline : Option String
  user_comm : Option String
  fields : List event_field_t
deriving DecidableEq, Repr

namespace trace_event_t

/-- Source: `bool is_fence_signaled() const` -/
def is_fence_signaled (e : trace_event_t) : Bool :=
  (e.flags &&& TRACE_FLAG_FENCE_SIGNALED) != 0

/-- Source: `bool is_ftrace_print() const` -/
def is_ftrace_print (e : trace_event_t) : Bool :=
  (e.flags &&& TRACE_FLAG_FTRACE_PRINT) != 0

/-- Source: `bool is_vblank() const` -/
def is_vblank (e : trace_event_t) : Bool :=
  (e.flags &&& TRACE_FLAG_IS_VBLANK) != 0

/-- Source: `bool is_timeline() const` -/
def is_timeline (e : trace_event_t) : Bool :=
  (e.flags &&& TRACE_FLAG_IS_TIMELINE) != 0

/-- Source: `const char *get_timeline_name( const char *def = NULL ) const` -/
def get_timeline_name (e : trace_event_t) (defname : Option String) : Option String :=
  if (e.flags &&& TRACE_FLAG_IS_SW_QUEUE) != 0 then
    some "SW queue"
  else if (e.flags &&& TRACE_FLAG_IS_HW_QUEUE) != 0 then
    some "HW queue"
  else if e.is_fence_signaled then
    some "Execution"
  else
    defname

end trace_event_t

/-! ## The ranges of the field types -/

/-- The values of `int64_t`. -/
def in_int64 (x : Int) : Prop := -(2 ^ 63) ≤ x ∧ x < 2 ^ 63

instance (x : Int) : Decidable (in_int64 x) :=
  inferInstanceAs (Decidable (-(2 ^ 63) ≤ x ∧ x < 2 ^ 63))

/-- The values of `int`. -/
def in_int32 (x : Int) : Prop := -(2 ^ 31) ≤ x ∧ x < 2 ^ 31

instance (x : Int) : Decidable (in_int32 x) :=
  inferInstanceAs (Decidable (-(2 ^ 31) ≤ x ∧ x < 2 ^ 31))

/-- The record is a value of the header's `struct trace_event_t`: every
`uint32_t` field is below `2 ^ 32`, every `int` field is an `int`, and `ts` is
an `int64_t`. -/
def trace_event_t.in_range (e : trace_event_t) : Prop :=
  in_int32 e.pid ∧ in_int32 e.crtc ∧
  e.id < 2 ^ 32 ∧ e.cpu < 2 ^ 32 ∧ e.flags < 2 ^ 32 ∧ e.context < 2 ^ 32 ∧
  e.seqno < 2 ^ 32 ∧ e.id_start < 2 ^ 32 ∧ e.graph_row_id < 2 ^ 32 ∧
  e.duration < 2 ^ 32 ∧ e.color < 2 ^ 32 ∧ in_int64 e.ts

instance (e : trace_event_t) : Decidable e.in_range :=
  inferInstanceAs (Decidable (in_int32 e.pid ∧ in_int32 e.crtc ∧
    e.id < 2 ^ 32 ∧ e.cpu < 2 ^ 32 ∧ e.flags < 2 ^ 32 ∧ e.context < 2 ^ 32 ∧
    e.seqno < 2 ^ 32 ∧ e.id_start < 2 ^ 32 ∧ e.graph_row_id < 2 ^ 32 ∧
    e.duration < 2 ^ 32 ∧ e.color < 2 ^ 32 ∧ in_int64 e.ts))

/-! ## Linkage -/

/-- The subtraction `a - b` of two `int64_t`: `none` when the difference is not
an `int64_t`, where the subtraction overflows and has no result. -/
def int64_sub (a b : Int) : Option Int :=
  if in_int64 (a - b) then some (a - b) else none

/-- Modelled from the spec: linkage resolution, which is not in the header.
Section 4.4 step 4, word for word: when a completion event arrives and a
start event is pending for it, `id_start` becomes the id of the start event
and `duration` becomes `ts - start.ts`; a negative difference is a linkage
failure, which records `id_start = INVALID_ID` and sets no duration.  The
timestamps are the header's `int64_t ts`, so there is no result (`none`) when
their subtraction overflows. -/
def link_completion (start completion : trace_event_t) : Option trace_event_t :=
  match int64_sub completion.ts start.ts with
  | none => none
  | some d =>
    if d < 0 then
      some { completion with id_start := INVALID_ID }
    else
      some { completion with id_start := start.id, duration := d.toNat }

/-- An event record with every field zero, false, `NULL` or empty, and no
start event. -/
def zero_event : trace_event_t :=
  { is_filtered_out := false, pid := 0, crtc := 0, id := 0, cpu := 0, flags := 0,
    context := 0, seqno := 0, id_start := INVALID_ID, graph_row_id := 0, duration := 0,
    color := 0, ts := 0, comm := none, system := none, name := none, timeline := none,
    user_comm := none, fields := [] }

/-! ## Bit operations on a flags word -/

/-- The six enumerators of `trace_flag_type_t`. -/
def trace_flags : List Nat :=
  [TRACE_FLAG_FTRACE_PRINT, TRACE_FLAG_IS_VBLANK, TRACE_FLAG_IS_TIMELINE,
   TRACE_FLAG_IS_SW_QUEUE, TRACE_FLAG_IS_HW_QUEUE, TRACE_FLAG_FENCE_SIGNALED]

/-- The bit test `!!( flags & X )` of the header's predicates. -/
def test_flag (flags x : Nat) : Bool := (flags &&& x) != 0

/-- The expression `flags | X`. -/
def set_flag (flags x : Nat) : Nat := flags ||| x

/-- The expression `flags & ~X` on `uint32_t`: `~X` is `-X - 1`, converted to
`uint32_t`. -/
def clear_flag (flags x : Nat) : Nat := flags &&& to_uint32 (-(x : Int) - 1)

/-- An event whose flags word is `flags` (every other field as in `zero_event`). -/
def event_with_flags (flags : Nat) : trace_event_t := { zero_event with flags := flags }

/-- An event with the given id and timestamp (every other field as in
`zero_event`). -/
def event_at (id : Nat) (ts : Int) : trace_event_t := { zero_event with id := id, ts := ts }

/-! ## Sequences of calls on a util_umap -/

/-- One call of a member function of `util_umap`, with its arguments. -/
inductive umap_call (K V : Type) where
  | call_get_val_defval (key : K) (defval : V)
  | call_get_val (key : K)
  | call_set_val (key : K) (val : V)
deriving DecidableEq, Repr

namespace umap_call

variable {K V : Type}

/-- The map after the call. -/
def apply [DecidableEq K] (m : util_umap K V) : umap_call K V → util_umap K V
  | call_get_val_defval key defval => (m.get_val_defval key defval).1
  | call_get_val key => (m.get_val key).1
  | call_set_val key val => m.set_val key val

/-- The key passed to `get_val( key, defval )` or `set_val`; none for the
one-argument `get_val`. -/
def written_key : umap_call K V → Option K
  | call_get_val_defval key _ => some key
  | call_get_val _ => none
  | call_set_val key _ => some key

end umap_call

/-- The map after a sequence of calls, made in order on the map `m`. -/
def run_calls {K V : Type} [DecidableEq K] (m : util_umap K V)
    (calls : List (umap_call K V)) : util_umap K V :=
  calls.foldl umap_call.apply m

/-- The number of distinct keys passed to `get_val( key, defval )` or `set_val`
in a sequence of calls. -/
def distinct_written_keys {K V : Type} [DecidableEq K]
    (calls : List (umap_call K V)) : Nat :=
  ((calls.filterMap umap_call.written_key).dedup).length

/-! # Theorems -/

namespace unordered_map

variable {K V : Type}

theorem find_node_eq_none [DecidableEq K] (key : K) (l : List (K × V)) :
    find_node key l = none ↔ ∀ e ∈ l, e.1 ≠ key := by
  induction l with
  | nil => simp [find_node]
  | cons e rest ih =>
    by_cases h : e.1 = key
    · simp [find_node, h]
    · simp [find_node, h, ih]

theorem find_node_getElem [DecidableEq K] (key : K) (l : List (K × V)) (i : Nat)
    (h : find_node key l = some i) : ∃ v, l[i]? = some (key, v) := by
  induction l generalizing i with
  | nil => simp [find_node] at h
  | cons e rest ih =>
    by_cases hk : e.1 = key
    · simp [find_node, hk] at h
      subst h
      exact ⟨e.2, by simp [← hk]⟩
    · simp [find_node, hk] at h
      obtain ⟨j, hj, rfl⟩ := h
      obtain ⟨v, hv⟩ := ih j hj
      exact ⟨v, by simpa using hv⟩

theorem find_node_lt [DecidableEq K] (key : K) (l : List (K × V)) (i : Nat)
    (h : find_node key l = some i) : i < l.length := by
  obtain ⟨v, hv⟩ := find_node_getElem key l i h
  by_contra hlt
  rw [List.getElem?_eq_none (by omega)] at hv
  cases hv

theorem find_node_append_some [DecidableEq K] (key : K) (l l2 : List (K × V)) (i : Nat)
    (h : find_node key l = some i) : find_node key (l ++ l2) = some i := by
  induction l generalizing i with
  | nil => simp [find_node] at h
  | cons e rest ih =>
    by_cases hk : e.1 = key
    · simpa [find_node, hk] using h
    · simp [find_node, hk] at h
      obtain ⟨j, hj, rfl⟩ := h
      simp [find_node, hk, ih j hj]

theorem find_node_append_none [DecidableEq K] (key : K) (l : List (K × V)) (e : K × V)
    (h : find_node key l = none) :
    find_node key (l ++ [e]) = if e.1 = key then some l.length else none := by
  induction l with
  | nil => simp [find_node]
  | cons a rest ih =>
    by_cases hk : a.1 = key
    · simp [find_node, hk] at h
    · simp [find_node, hk] at h
      have ih2 := ih h
      by_cases he : e.1 = key
      · simp [find_node, hk, he] at ih2 ⊢
        exact ih2
      · simp [find_node, hk, he] at ih2 ⊢
        exact ih2

theorem find_node_assign [DecidableEq K] (key : K) (val : V) (i : Nat) (l : List (K × V)) :
    find_node key (assign_node val i l) = find_node key l := by
  induction l generalizing i with
  | nil => simp [assign_node]
  | cons e rest ih =>
    cases i with
    | zero => simp [assign_node, find_node]
    | succ j => simp [assign_node, find_node, ih j]

theorem assign_node_length (val : V) (i : Nat) (l : List (K × V)) :
    (assign_node val i l).length = l.length := by
  induction l generalizing i with
  | nil => simp [assign_node]
  | cons e rest ih =>
    cases i with
    | zero => simp [assign_node]
    | succ j => simp [assign_node, ih j]

theorem assign_node_keys (val : V) (i : Nat) (l : List (K × V)) :
    (assign_node val i l).map Prod.fst = l.map Prod.fst := by
  induction l generalizing i with
  | nil => simp [assign_node]
  | cons e rest ih =>
    cases i with
    | zero => simp [assign_node]
    | succ j => simp [assign_node, ih j]

theorem getElem?_assign_node_self (val : V) (i : Nat) (l : List (K × V)) :
    (assign_node val i l)[i]? = (l[i]?).map (fun e => (e.1, val)) := by
  induction l generalizing i with
  | nil => simp [assign_node]
  | cons e rest ih =>
    cases i with
    | zero => simp [assign_node]
    | succ j => simp [assign_node, ih j]

theorem getElem?_assign_node_ne (val : V) (i j : Nat) (l : List (K × V)) (h : j ≠ i) :
    (assign_node val i l)[j]? = l[j]? := by
  induction l generalizing i j with
  | nil => simp [assign_node]
  | cons e rest ih =>
    cases i with
    | zero =>
      cases j with
      | zero => exact absurd rfl h
      | succ j2 => simp [assign_node]
    | succ i2 =>
      cases j with
      | zero => simp [assign_node]
      | succ j2 => simp [assign_node, ih i2 j2 (by omega)]

theorem assign_node_assign_node (v1 v2 : V) (i : Nat) (l : List (K × V)) :
    assign_node v2 i (assign_node v1 i l) = assign_node v2 i l := by
  induction l generalizing i with
  | nil => simp [assign_node]
  | cons e rest ih =>
    cases i with
    | zero => simp [assign_node]
    | succ j => simp [assign_node, ih j]

theorem assign_node_append_last (v : V) (l : List (K × V)) (e : K × V) :
    assign_node v l.length (l ++ [e]) = l ++ [(e.1, v)] := by
  induction l with
  | nil => simp [assign_node]
  | cons a rest ih => simp [assign_node, ih]

theorem filter_key_of_find_none [DecidableEq K] (key : K) (l : List (K × V))
    (h : find_node key l = none) : l.filter (fun e => decide (e.1 = key)) = [] := by
  rw [find_node_eq_none] at h
  simpa [List.filter_eq_nil_iff] using h

theorem find_node_of_mem_nodup [DecidableEq K] (key : K) (v : V) (l : List (K × V))
    (hwf : (l.map Prod.fst).Nodup) (hm : (key, v) ∈ l) :
    ∃ i, find_node key l = some i ∧ l[i]? = some (key, v) := by
  induction l with
  | nil => simp at hm
  | cons e rest ih =>
    simp only [List.map_cons, List.nodup_cons] at hwf
    by_cases hk : e.1 = key
    · refine ⟨0, by simp [find_node, hk], ?_⟩
      rcases List.mem_cons.mp hm with h | h
      · simp [h]
      · exact absurd (List.mem_map_of_mem Prod.fst h) (by simpa [hk] using hwf.1)
    · rcases List.mem_cons.mp hm with h | h
      · exact absurd (by rw [← h]) hk
      · obtain ⟨i, hi, hg⟩ := ih hwf.2 h
        exact ⟨i + 1, by simp [find_node, hk, hi], by simpa using hg⟩

end unordered_map

namespace util_umap

variable {K V : Type}

theorem count_eq_zero_iff [DecidableEq K] (m : util_umap K V) (k : K) :
    m.m_map.count k = 0 ↔ m.m_map.find k = none := by
  unfold unordered_map.count unordered_map.find
  rw [unordered_map.find_node_eq_none, List.length_eq_zero, List.filter_eq_nil_iff]
  simp

theorem get_val_snd [DecidableEq K] (m : util_umap K V) (k : K) :
    (m.get_val k).2 = m.m_map.find k := by
  unfold get_val
  cases m.m_map.find k <;> rfl

theorem get_val_fst [DecidableEq K] (m : util_umap K V) (k : K) :
    (m.get_val k).1 = m := by
  unfold get_val
  cases m.m_map.find k <;> rfl

theorem get_val_defval_of_find_some [DecidableEq K] (m : util_umap K V) (k : K) (d : V)
    (i : Nat) (h : m.m_map.find k = some i) : m.get_val_defval k d = (m, some i) := by
  simp [get_val_defval, unordered_map.emplace, h]

theorem get_val_defval_of_find_none [DecidableEq K] (m : util_umap K V) (k : K) (d : V)
    (h : m.m_map.find k = none) :
    m.get_val_defval k d = (⟨⟨m.m_map.nodes ++ [(k, d)]⟩⟩, some m.m_map.nodes.length) := by
  simp [get_val_defval, unordered_map.emplace, h]

theorem set_val_of_find_some [DecidableEq K] (m : util_umap K V) (k : K) (v : V)
    (i : Nat) (h : m.m_map.find k = some i) :
    m.set_val k v = ⟨⟨unordered_map.assign_node v i m.m_map.nodes⟩⟩ := by
  simp [set_val, unordered_map.emplace, unordered_map.assign, h]

theorem set_val_of_find_none [DecidableEq K] (m : util_umap K V) (k : K) (v : V)
    (h : m.m_map.find k = none) :
    m.set_val k v = ⟨⟨m.m_map.nodes ++ [(k, v)]⟩⟩ := by
  simp [set_val, unordered_map.emplace, h]

theorem find_set_val_self [DecidableEq K] (m : util_umap K V) (k : K) (v : V) :
    ∃ i, (m.set_val k v).m_map.find k = some i ∧
      (m.set_val k v).m_map.nodes[i]? = some (k, v) := by
  cases h : m.m_map.find k with
  | none =>
    refine ⟨m.m_map.nodes.length, ?_, ?_⟩
    · rw [set_val_of_find_none m k v h]
      simp [unordered_map.find, unordered_map.find_node_append_none k _ (k, v) h]
    · rw [set_val_of_find_none m k v h]
      simp
  | some i =>
    obtain ⟨w, hw⟩ := unordered_map.find_node_getElem k _ i h
    refine ⟨i, ?_, ?_⟩
    · rw [set_val_of_find_some m k v i h]
      simpa [unordered_map.find, unordered_map.find_node_assign] using h
    · rw [set_val_of_find_some m k v i h]
      simp [unordered_map.getElem?_assign_node_self, hw]

theorem set_val_set_val [DecidableEq K] (m : util_umap K V) (k : K) (v1 v2 : V) :
    (m.set_val k v1).set_val k v2 = m.set_val k v2 := by
  cases h : m.m_map.find k with
  | none =>
    have h1 : (m.set_val k v1).m_map.find k = some m.m_map.nodes.length := by
      rw [set_val_of_find_none m k v1 h]
      simp [unordered_map.find, unordered_map.find_node_append_none k _ (k, v1) h]
    rw [set_val_of_find_some _ k v2 _ h1, set_val_of_find_none m k v1 h,
      set_val_of_find_none m k v2 h]
    simp [unordered_map.assign_node_append_last]
  | some i =>
    have h1 : (m.set_val k v1).m_map.find k = some i := by
      rw [set_val_of_find_some m k v1 i h]
      simpa [unordered_map.find, unordered_map.find_node_assign] using h
    rw [set_val_of_find_some _ k v2 _ h1, set_val_of_find_some m k v1 i h,
      set_val_of_find_some m k v2 i h]
    simp [unordered_map.assign_node_assign_node]

theorem deref_get_val_set_val [DecidableEq K] (m : util_umap K V) (k : K) (v : V) :
    ((m.set_val k v).get_val k).1.deref ((m.set_val k v).get_val k).2 = some v := by
  obtain ⟨i, hi, hg⟩ := find_set_val_self m k v
  rw [get_val_fst, get_val_snd, hi]
  simp [deref, hg]

theorem find_set_val_ne [DecidableEq K] (m : util_umap K V) (k k2 : K) (v : V)
    (h : k2 ≠ k) : (m.set_val k v).m_map.find k2 = m.m_map.find k2 := by
  cases hf : m.m_map.find k with
  | none =>
    rw [set_val_of_find_none m k v hf]
    cases h2 : m.m_map.find k2 with
    | none =>
      have := unordered_map.find_node_append_none k2 m.m_map.nodes (k, v) h2
      simpa [unordered_map.find, Ne.symm h] using this
    | some j =>
      exact unordered_map.find_node_append_some k2 m.m_map.nodes [(k, v)] j h2
  | some i =>
    rw [set_val_of_find_some m k v i hf]
    simp [unordered_map.find, unordered_map.find_node_assign]

theorem deref_set_val_ne [DecidableEq K] (m : util_umap K V) (k k2 : K) (v : V)
    (h : k2 ≠ k) :
    (m.set_val k v).deref (m.m_map.find k2) = m.deref (m.m_map.find k2) := by
  cases h2 : m.m_map.find k2 with
  | none => simp [deref]
  | some j =>
    have hj := unordered_map.find_node_lt k2 _ j h2
    obtain ⟨w, hw⟩ := unordered_map.find_node_getElem k2 _ j h2
    cases hf : m.m_map.find k with
    | none =>
      rw [set_val_of_find_none m k v hf]
      simp [deref, List.getElem?_append_left hj]
    | some i =>
      obtain ⟨u, hu⟩ := unordered_map.find_node_getElem k _ i hf
      have hne : j ≠ i := by
        rintro rfl
        rw [hw] at hu
        exact h (by simpa using congrArg (fun o => o.map Prod.fst) hu)
      rw [set_val_of_find_some m k v i hf]
      simp [deref, unordered_map.getElem?_assign_node_ne v i j _ hne]

theorem size_set_val [DecidableEq K] (m : util_umap K V) (k : K) (v : V) :
    (m.set_val k v).m_map.size =
      m.m_map.size + (if m.m_map.count k = 0 then 1 else 0) := by
  cases hf : m.m_map.find k with
  | none =>
    have hc := (count_eq_zero_iff m k).2 hf
    rw [set_val_of_find_none m k v hf]
    simp [unordered_map.size, hc]
  | some i =>
    have hc : m.m_map.count k ≠ 0 := by
      intro h0
      rw [(count_eq_zero_iff m k).1 h0] at hf
      cases hf
    rw [set_val_of_find_some m k v i hf]
    simp [unordered_map.size, hc, unordered_map.assign_node_length]

theorem get_val_defval_node [DecidableEq K] (m : util_umap K V) (k : K) (d : V) :
    ∃ i w, (m.get_val_defval k d).2 = some i ∧
      (m.get_val_defval k d).1.m_map.find k = some i ∧
      (m.get_val_defval k d).1.m_map.nodes[i]? = some (k, w) := by
  cases hf : m.m_map.find k with
  | none =>
    rw [get_val_defval_of_find_none m k d hf]
    refine ⟨m.m_map.nodes.length, d, rfl, ?_, by simp⟩
    simp [unordered_map.find, unordered_map.find_node_append_none k _ (k, d) hf]
  | some i =>
    obtain ⟨w, hw⟩ := unordered_map.find_node_getElem k _ i hf
    rw [get_val_defval_of_find_some m k d i hf]
    exact ⟨i, w, rfl, hf, hw⟩

theorem get_val_defval_keeps_node [DecidableEq K] (m : util_umap K V) (k : K) (d : V)
    (i : Nat) (e : K × V) (h : m.m_map.nodes[i]? = some e) :
    (m.get_val_defval k d).1.m_map.nodes[i]? = some e := by
  cases hf : m.m_map.find k with
  | none =>
    rw [get_val_defval_of_find_none m k d hf]
    have hi : i < m.m_map.nodes.length := by
      by_contra hlt
      rw [List.getElem?_eq_none (by omega)] at h
      cases h
    simpa [List.getElem?_append_left hi] using h
  | some j =>
    rw [get_val_defval_of_find_some m k d j hf]
    exact h

theorem WF_empty : (empty : util_umap K V).m_map.WF := by
  simp [empty, unordered_map.WF]

theorem WF_append_of_find_none [DecidableEq K] (m : util_umap K V) (k : K) (v : V)
    (hwf : m.m_map.WF) (hf : m.m_map.find k = none) :
    ((m.m_map.nodes ++ [(k, v)]).map Prod.fst).Nodup := by
  have hk : k ∉ m.m_map.nodes.map Prod.fst := by
    intro hmem
    obtain ⟨e, he, hek⟩ := List.mem_map.mp hmem
    exact (unordered_map.find_node_eq_none k _).1 hf e he hek
  rw [List.map_append, List.nodup_append]
  refine ⟨hwf, by simp, ?_⟩
  intro a ha hb
  have : a = k := by simpa using hb
  exact hk (this ▸ ha)

theorem WF_get_val_defval [DecidableEq K] (m : util_umap K V) (k : K) (d : V)
    (hwf : m.m_map.WF) : (m.get_val_defval k d).1.m_map.WF := by
  cases hf : m.m_map.find k with
  | none =>
    rw [get_val_defval_of_find_none m k d hf]
    exact WF_append_of_find_none m k d hwf hf
  | some i =>
    rw [get_val_defval_of_find_some m k d i hf]
    exact hwf

theorem WF_set_val [DecidableEq K] (m : util_umap K V) (k : K) (v : V)
    (hwf : m.m_map.WF) : (m.set_val k v).m_map.WF := by
  cases hf : m.m_map.find k with
  | none =>
    rw [set_val_of_find_none m k v hf]
    exact WF_append_of_find_none m k v hwf hf
  | some i =>
    rw [set_val_of_find_some m k v i hf]
    simpa [unordered_map.WF, unordered_map.assign_node_keys] using hwf

end util_umap

namespace StrPool

theorem getstr_eq (hash : String → Nat) (p : StrPool) (s : String) (len : Option Nat) :
    getstr hash p s len =
      (⟨(p.m_pool.get_val_defval (hash (content s len) % 2 ^ 32) (content s len)).1⟩,
        (p.m_pool.get_val_defval (hash (content s len) % 2 ^ 32) (content s len)).2) := rfl

theorem getstr_same_ref_iff (hash : String → Nat) (p : StrPool) (s1 s2 : String)
    (len1 len2 : Option Nat) :
    (getstr hash (getstr hash p s1 len1).1 s2 len2).2 = (getstr hash p s1 len1).2 ↔
      hash (content s2 len2) % 2 ^ 32 = hash (content s1 len1) % 2 ^ 32 := by
  simp only [getstr_eq]
  generalize hash (content s1 len1) % 2 ^ 32 = h1
  generalize hash (content s2 len2) % 2 ^ 32 = h2
  generalize content s1 len1 = c1
  generalize content s2 len2 = c2
  obtain ⟨i1, w1, hp1, hf1, hn1⟩ := util_umap.get_val_defval_node p.m_pool h1 c1
  obtain ⟨i2, w2, hp2, hf2, hn2⟩ :=
    util_umap.get_val_defval_node (p.m_pool.get_val_defval h1 c1).1 h2 c2
  constructor
  · intro h
    rw [hp1, hp2] at h
    have hi : i2 = i1 := by simpa using h
    subst hi
    have hk := util_umap.get_val_defval_keeps_node _ h2 c2 i2 _ hn1
    rw [hn2] at hk
    simpa using congrArg (fun o => o.map Prod.fst) hk
  · intro h
    subst h
    rw [util_umap.get_val_defval_of_find_some _ h2 c2 i1 hf1, hp1]

theorem replicate_string_injective :
    Function.Injective (fun n : Nat => String.mk (List.replicate n 'a')) := by
  intro a b h
  have h2 : List.replicate a 'a' = List.replicate b 'a' := by
    simpa using congrArg String.data h
  simpa using congrArg List.length h2

theorem exists_hash_collision (hash : String → Nat) :
    ∃ s1 s2 : String, s1 ≠ s2 ∧ hash s1 % 2 ^ 32 = hash s2 % 2 ^ 32 := by
  let f : Nat → Fin (2 ^ 32) := fun n =>
    ⟨hash (String.mk (List.replicate n 'a')) % 2 ^ 32, Nat.mod_lt _ (by norm_num)⟩
  obtain ⟨x, y, hxy, hf⟩ := Finite.exists_ne_map_eq_of_infinite f
  refine ⟨String.mk (List.replicate x 'a'), String.mk (List.replicate y 'a'), ?_, ?_⟩
  · exact fun h => hxy (replicate_string_injective h)
  · exact congrArg Fin.val hf

end StrPool

/-! ## The claims -/

/-- C1: `get_val( key, defval )` is get-or-insert and the first default wins.
When the map has no entry for `k`, `get_val( k, d1 )` followed by
`get_val( k, d2 )` returns both times a pointer to `d1`, and it is the same
pointer; the second call leaves the map as the first call left it, and the
map then holds exactly one entry for `k`, whose value is `d1`. -/
theorem get_val_defval_first_default_wins {K V : Type} [DecidableEq K]
    (m : util_umap K V) (k : K) (d1 d2 : V) (h : m.m_map.count k = 0) :
    (m.get_val_defval k d1).1.deref (m.get_val_defval k d1).2 = some d1 ∧
    ((m.get_val_defval k d1).1.get_val_defval k d2).1.deref
        ((m.get_val_defval k d1).1.get_val_defval k d2).2 = some d1 ∧
    ((m.get_val_defval k d1).1.get_val_defval k d2).2 = (m.get_val_defval k d1).2 ∧
    ((m.get_val_defval k d1).1.get_val_defval k d2).1 = (m.get_val_defval k d1).1 ∧
    ((m.get_val_defval k d1).1.get_val_defval k d2).1.m_map.nodes.filter
        (fun e => decide (e.1 = k)) = [(k, d1)] ∧
    ((m.get_val_defval k d1).1.get_val_defval k d2).1.m_map.count k = 1 := by
  have hf : m.m_map.find k = none := (util_umap.count_eq_zero_iff m k).1 h
  have hfil := unordered_map.filter_key_of_find_none k m.m_map.nodes hf
  have h1 := util_umap.get_val_defval_of_find_none m k d1 hf
  have hf2 : (m.get_val_defval k d1).1.m_map.find k = some m.m_map.nodes.length := by
    rw [h1]
    simp [unordered_map.find, unordered_map.find_node_append_none k _ (k, d1) hf]
  have h2 := util_umap.get_val_defval_of_find_some _ k d2 _ hf2
  rw [h2]
  rw [h1]
  refine ⟨?_, ?_, rfl, rfl, ?_, ?_⟩
  · simp [util_umap.deref]
  · simp [util_umap.deref]
  · simp [List.filter_append, hfil]
  · simp [unordered_map.count, List.filter_append, hfil]

/-- The map `{5 ↦ 50}` has no entry for 7: asking for 7 with default 10 and
then with default 20 gives a pointer to 10 both times, and one entry `(7, 10)`. -/
theorem get_val_defval_first_default_wins_witness :
    (⟨⟨[(5, 50)]⟩⟩ : util_umap Nat Nat).m_map.count 7 = 0 ∧
    (((⟨⟨[(5, 50)]⟩⟩ : util_umap Nat Nat).get_val_defval 7 10).1.get_val_defval 7 20).1.deref
      (((⟨⟨[(5, 50)]⟩⟩ : util_umap Nat Nat).get_val_defval 7 10).1.get_val_defval 7 20).2
      = some 10 ∧
    (((⟨⟨[(5, 50)]⟩⟩ : util_umap Nat Nat).get_val_defval 7 10).1.get_val_defval 7 20).1
      = ⟨⟨[(5, 50), (7, 10)]⟩⟩ :=
  ⟨by decide,
   (get_val_defval_first_default_wins ⟨⟨[(5, 50)]⟩⟩ 7 10 20 (by decide)).2.1,
   by decide⟩

/-- C2: `set_val` is an upsert.  For every map, with or without an entry for
`k`, after `set_val( k, v )` the lookup `get_val( k )` returns a pointer that is
not `NULL` and addresses a value equal to `v`. -/
theorem set_val_then_get_val {K V : Type} [DecidableEq K]
    (m : util_umap K V) (k : K) (v : V) :
    ((m.set_val k v).get_val k).2 ≠ none ∧
    ((m.set_val k v).get_val k).1.deref ((m.set_val k v).get_val k).2 = some v := by
  refine ⟨?_, util_umap.deref_get_val_set_val m k v⟩
  obtain ⟨i, hi, _⟩ := util_umap.find_set_val_self m k v
  rw [util_umap.get_val_snd, hi]
  simp

/-- C3: the lookup `get_val( key )` never inserts and signals absence by
`NULL`.  It returns `NULL` exactly when the map has no entry for `k`; a
returned pointer addresses a node of the map whose key is `k`, and reading
through it gives that node's value; in a map with one entry per key that is
the value `v` of the entry `(k, v)`; and the map after the call is the map
before it. -/
theorem get_val_null_iff_absent {K V : Type} [DecidableEq K]
    (m : util_umap K V) (k : K) :
    ((m.get_val k).2 = none ↔ m.m_map.count k = 0) ∧
    ((m.get_val k).2 = none ↔ ∀ v, (k, v) ∉ m.m_map.nodes) ∧
    (∀ i, (m.get_val k).2 = some i →
      ∃ v, m.m_map.nodes[i]? = some (k, v) ∧
        (m.get_val k).1.deref (m.get_val k).2 = some v) ∧
    (∀ v, m.m_map.WF → (k, v) ∈ m.m_map.nodes →
      (m.get_val k).1.deref (m.get_val k).2 = some v) ∧
    (m.get_val k).1 = m := by
  rw [util_umap.get_val_fst, util_umap.get_val_snd]
  refine ⟨(util_umap.count_eq_zero_iff m k).symm, ?_, ?_, ?_, rfl⟩
  · unfold unordered_map.find
    rw [unordered_map.find_node_eq_none]
    constructor
    · intro h v hv
      exact h (k, v) hv rfl
    · rintro h ⟨a, b⟩ he hk
      simp only at hk
      subst hk
      exact h b he
  · intro i hi
    obtain ⟨v, hv⟩ := unordered_map.find_node_getElem k _ i hi
    exact ⟨v, hv, by simp [util_umap.deref, hi, hv]⟩
  · intro v hwf hm
    obtain ⟨i, hi, hg⟩ := unordered_map.find_node_of_mem_nodup k v _ hwf hm
    simp [util_umap.deref, unordered_map.find, hi, hg]

/-- In the map `{5 ↦ 50, 7 ↦ 70}` the lookup of 7 gives a pointer to 70, the
lookup of 9 gives `NULL`, and neither changes the map. -/
theorem get_val_null_iff_absent_witness :
    (⟨⟨[(5, 50), (7, 70)]⟩⟩ : util_umap Nat Nat).m_map.WF ∧
    ((⟨⟨[(5, 50), (7, 70)]⟩⟩ : util_umap Nat Nat).get_val 7).1.deref
      ((⟨⟨[(5, 50), (7, 70)]⟩⟩ : util_umap Nat Nat).get_val 7).2 = some 70 ∧
    ((⟨⟨[(5, 50), (7, 70)]⟩⟩ : util_umap Nat Nat).get_val 9).2 = none ∧
    ((⟨⟨[(5, 50), (7, 70)]⟩⟩ : util_umap Nat Nat).get_val 9).1
      = ⟨⟨[(5, 50), (7, 70)]⟩⟩ :=
  ⟨by decide,
   (get_val_null_iff_absent ⟨⟨[(5, 50), (7, 70)]⟩⟩ 7).2.2.2.1 70 (by decide) (by decide),
   (get_val_null_iff_absent ⟨⟨[(5, 50), (7, 70)]⟩⟩ 9).1.2 (by decide),
   (get_val_null_iff_absent ⟨⟨[(5, 50), (7, 70)]⟩⟩ 9).2.2.2.2⟩

/-- C4: `get_val( key, defval )` returns the existing value and does not
overwrite it.  In a map with one entry per key where `k` is bound to `v`, for
every default `d` the call returns a pointer to `v` and leaves the map as it
was; that is so in particular after `set_val( k, v )` on any map.  When `k` is
absent the call adds the entry `(k, d)`, keeps every other entry, and returns a
pointer to `d`. -/
theorem get_val_defval_keeps_existing {K V : Type} [DecidableEq K]
    (m : util_umap K V) (k : K) (v d : V) (hwf : m.m_map.WF) :
    ((k, v) ∈ m.m_map.nodes →
      (m.get_val_defval k d).1 = m ∧
      (m.get_val_defval k d).1.deref (m.get_val_defval k d).2 = some v) ∧
    (((m.set_val k v).get_val_defval k d).1 = m.set_val k v ∧
      ((m.set_val k v).get_val_defval k d).1.deref
        ((m.set_val k v).get_val_defval k d).2 = some v) ∧
    (m.m_map.count k = 0 →
      (m.get_val_defval k d).1.m_map.nodes = m.m_map.nodes ++ [(k, d)] ∧
      (m.get_val_defval k d).1.deref (m.get_val_defval k d).2 = some d) := by
  refine ⟨?_, ?_, ?_⟩
  · intro hm
    obtain ⟨i, hi, hg⟩ := unordered_map.find_node_of_mem_nodup k v _ hwf hm
    rw [util_umap.get_val_defval_of_find_some m k d i hi]
    exact ⟨rfl, by simp [util_umap.deref, hg]⟩
  · obtain ⟨i, hi, hg⟩ := util_umap.find_set_val_self m k v
    rw [util_umap.get_val_defval_of_find_some _ k d i hi]
    exact ⟨rfl, by simp [util_umap.deref, hg]⟩
  · intro h0
    have hf := (util_umap.count_eq_zero_iff m k).1 h0
    rw [util_umap.get_val_defval_of_find_none m k d hf]
    exact ⟨rfl, by simp [util_umap.deref]⟩

/-- In the map `{5 ↦ 50, 7 ↦ 70}`: asking for 7 with default 10 gives a pointer
to 70 and changes nothing; asking for the absent 9 with default 10 appends
`(9, 10)` and gives a pointer to 10. -/
theorem get_val_defval_keeps_existing_witness :
    (⟨⟨[(5, 50), (7, 70)]⟩⟩ : util_umap Nat Nat).m_map.WF ∧
    (((⟨⟨[(5, 50), (7, 70)]⟩⟩ : util_umap Nat Nat).get_val_defval 7 10).1
        = ⟨⟨[(5, 50), (7, 70)]⟩⟩ ∧
      ((⟨⟨[(5, 50), (7, 70)]⟩⟩ : util_umap Nat Nat).get_val_defval 7 10).1.deref
        ((⟨⟨[(5, 50), (7, 70)]⟩⟩ : util_umap Nat Nat).get_val_defval 7 10).2 = some 70) ∧
    (((⟨⟨[(5, 50), (7, 70)]⟩⟩ : util_umap Nat Nat).get_val_defval 9 10).1.m_map.nodes
        = [(5, 50), (7, 70)] ++ [(9, 10)] ∧
      ((⟨⟨[(5, 50), (7, 70)]⟩⟩ : util_umap Nat Nat).get_val_defval 9 10).1.deref
        ((⟨⟨[(5, 50), (7, 70)]⟩⟩ : util_umap Nat Nat).get_val_defval 9 10).2 = some 10) :=
  ⟨by decide,
   (get_val_defval_keeps_existing ⟨⟨[(5, 50), (7, 70)]⟩⟩ 7 70 10 (by decide)).1 (by decide),
   (get_val_defval_keeps_existing ⟨⟨[(5, 50), (7, 70)]⟩⟩ 9 0 10 (by decide)).2.2 (by decide)⟩

/-- C5: writes through `util_umap` are last-write-wins.  For every map,
`set_val( k, v1 )` followed by `set_val( k, v2 )` gives the very map that
`set_val( k, v2 )` alone gives (so the same keys and the same value for every
key), and looking `k` up in it gives `v2`.  The `pid_tgid_map` and
`pid_comm_map` tables of `trace_info_t` are such maps: after two writes for a
pid each is the table the second write alone gives, and holds the second
value for the pid. -/
theorem set_val_last_write_wins {K V : Type} [DecidableEq K]
    (m : util_umap K V) (k : K) (v1 v2 : V)
    (info : trace_info_t) (pid tgid1 tgid2 : Int) (comm1 comm2 : Option String) :
    (m.set_val k v1).set_val k v2 = m.set_val k v2 ∧
    (∀ k2, (((m.set_val k v1).set_val k v2).get_val k2).2 = ((m.set_val k v2).get_val k2).2 ∧
      ((m.set_val k v1).set_val k v2).deref (((m.set_val k v1).set_val k v2).get_val k2).2
        = (m.set_val k v2).deref ((m.set_val k v2).get_val k2).2) ∧
    ((m.set_val k v1).set_val k v2).m_map.size = (m.set_val k v2).m_map.size ∧
    ((m.set_val k v1).set_val k v2).deref (((m.set_val k v1).set_val k v2).get_val k).2
      = some v2 ∧
    (info.pid_tgid_map.set_val pid tgid1).set_val pid tgid2
      = info.pid_tgid_map.set_val pid tgid2 ∧
    ((info.pid_tgid_map.set_val pid tgid1).set_val pid tgid2).deref
      (((info.pid_tgid_map.set_val pid tgid1).set_val pid tgid2).get_val pid).2
      = some tgid2 ∧
    (info.pid_comm_map.set_val pid comm1).set_val pid comm2
      = info.pid_comm_map.set_val pid comm2 ∧
    ((info.pid_comm_map.set_val pid comm1).set_val pid comm2).deref
      (((info.pid_comm_map.set_val pid comm1).set_val pid comm2).get_val pid).2
      = some comm2 := by
  have key : ∀ {K2 V2 : Type} [DecidableEq K2] (n : util_umap K2 V2) (a : K2) (x y : V2),
      ((n.set_val a x).set_val a y).deref (((n.set_val a x).set_val a y).get_val a).2
        = some y := by
    intro K2 V2 _ n a x y
    have := util_umap.deref_get_val_set_val (n.set_val a x) a y
    rwa [util_umap.get_val_fst] at this
  refine ⟨util_umap.set_val_set_val m k v1 v2, ?_, ?_, key m k v1 v2,
    util_umap.set_val_set_val _ pid tgid1 tgid2, key _ pid tgid1 tgid2,
    util_umap.set_val_set_val _ pid comm1 comm2, key _ pid comm1 comm2⟩
  · intro k2
    rw [util_umap.set_val_set_val m k v1 v2]
    exact ⟨rfl, rfl⟩
  · rw [util_umap.set_val_set_val m k v1 v2]

/-- C7: `set_val( k, v )` changes only the entry for `k`.  For every other key
the lookup `get_val` returns the same pointer (`NULL` included) and the same
value after the call as before it, and the number of entries grows by one
when `k` was absent and by zero when it was present. -/
theorem set_val_frame {K V : Type} [DecidableEq K]
    (m : util_umap K V) (k k2 : K) (v : V) (h : k2 ≠ k) :
    ((m.set_val k v).get_val k2).2 = (m.get_val k2).2 ∧
    ((m.set_val k v).get_val k2).1.deref ((m.set_val k v).get_val k2).2
      = (m.get_val k2).1.deref (m.get_val k2).2 ∧
    (m.m_map.count k = 0 → (m.set_val k v).m_map.size = m.m_map.size + 1) ∧
    (m.m_map.count k ≠ 0 → (m.set_val k v).m_map.size = m.m_map.size) := by
  simp only [util_umap.get_val_fst, util_umap.get_val_snd]
  have hs := util_umap.size_set_val m k v
  refine ⟨util_umap.find_set_val_ne m k k2 v h, ?_, ?_, ?_⟩
  · rw [util_umap.find_set_val_ne m k k2 v h]
    exact util_umap.deref_set_val_ne m k k2 v h
  · intro h0
    simpa [h0] using hs
  · intro h0
    simpa [h0] using hs

/-- In the map `{5 ↦ 50, 7 ↦ 70}`: overwriting 7 leaves the lookup of 5 at 50
and the size at 2; writing the absent 9 leaves the lookup of 5 at 50 and
makes the size 3. -/
theorem set_val_frame_witness :
    (5 : Nat) ≠ 7 ∧ (5 : Nat) ≠ 9 ∧
    (((⟨⟨[(5, 50), (7, 70)]⟩⟩ : util_umap Nat Nat).set_val 7 1).get_val 5).2
      = ((⟨⟨[(5, 50), (7, 70)]⟩⟩ : util_umap Nat Nat).get_val 5).2 ∧
    ((⟨⟨[(5, 50), (7, 70)]⟩⟩ : util_umap Nat Nat).set_val 7 1).m_map.size
      = (⟨⟨[(5, 50), (7, 70)]⟩⟩ : util_umap Nat Nat).m_map.size ∧
    ((⟨⟨[(5, 50), (7, 70)]⟩⟩ : util_umap Nat Nat).set_val 9 1).m_map.size
      = (⟨⟨[(5, 50), (7, 70)]⟩⟩ : util_umap Nat Nat).m_map.size + 1 ∧
    (((⟨⟨[(5, 50), (7, 70)]⟩⟩ : util_umap Nat Nat).set_val 9 1).get_val 5).1.deref
      (((⟨⟨[(5, 50), (7, 70)]⟩⟩ : util_umap Nat Nat).set_val 9 1).get_val 5).2 = some 50 :=
  ⟨by decide, by decide,
   (set_val_frame ⟨⟨[(5, 50), (7, 70)]⟩⟩ 7 5 1 (by decide)).1,
   (set_val_frame ⟨⟨[(5, 50), (7, 70)]⟩⟩ 7 5 1 (by decide)).2.2.2 (by decide),
   (set_val_frame ⟨⟨[(5, 50), (7, 70)]⟩⟩ 9 5 1 (by decide)).2.2.1 (by decide),
   ((set_val_frame ⟨⟨[(5, 50), (7, 70)]⟩⟩ 9 5 1 (by decide)).2.1).trans (by decide)⟩

/-- C8: interning idempotence.  For every string, every pool state and every
32-bit hash, the second of two `getstr` calls with the same arguments returns
the reference the first returned, that reference addresses a stored string,
and the second call leaves the pool as the first left it: `m_pool` has the
same entries, so no new one. -/
theorem getstr_idempotent (hash : String → Nat) (p : StrPool) (s : String)
    (len : Option Nat) :
    (StrPool.getstr hash (StrPool.getstr hash p s len).1 s len).2
      = (StrPool.getstr hash p s len).2 ∧
    (StrPool.getstr hash p s len).2 ≠ none ∧
    (∃ t, (StrPool.getstr hash p s len).1.text (StrPool.getstr hash p s len).2 = some t) ∧
    (StrPool.getstr hash (StrPool.getstr hash p s len).1 s len).1
      = (StrPool.getstr hash p s len).1 ∧
    (StrPool.getstr hash (StrPool.getstr hash p s len).1 s len).1.m_pool.m_map.size
      = (StrPool.getstr hash p s len).1.m_pool.m_map.size := by
  have href := (StrPool.getstr_same_ref_iff hash p s s len len).2 rfl
  obtain ⟨i, w, hp, hf, hn⟩ := util_umap.get_val_defval_node p.m_pool
    (hash (StrPool.content s len) % 2 ^ 32) (StrPool.content s len)
  have hpool : (StrPool.getstr hash (StrPool.getstr hash p s len).1 s len).1
      = (StrPool.getstr hash p s len).1 := by
    simp only [StrPool.getstr_eq]
    rw [util_umap.get_val_defval_of_find_some _ _ _ i hf]
  refine ⟨href, ?_, ⟨w, ?_⟩, hpool, by rw [hpool]⟩
  · simp only [StrPool.getstr_eq, hp]
    simp
  · simp only [StrPool.getstr_eq, StrPool.text, util_umap.deref, hp, Option.some_bind, hn,
      Option.map_some']

/-- C9, as stated, fails for every 32-bit hash: there is no hash function under
which every two distinct strings interned one after the other into a pool get
different references. -/
theorem getstr_distinct_refuted :
    ¬ ∃ hash : String → Nat, ∀ (p : StrPool) (s1 s2 : String), s1 ≠ s2 →
      (StrPool.getstr hash (StrPool.getstr hash p s1 none).1 s2 none).2
        ≠ (StrPool.getstr hash p s1 none).2 := by
  rintro ⟨hash, h⟩
  obtain ⟨s1, s2, hne, hc⟩ := StrPool.exists_hash_collision hash
  exact h ⟨util_umap.empty⟩ s1 s2 hne
    ((StrPool.getstr_same_ref_iff hash ⟨util_umap.empty⟩ s1 s2 none none).2 hc.symm)

/-- C9, amended: two strings interned one after the other into a pool get
different references exactly when their 32-bit hash values differ (and so the
same reference when the hash values are equal, whether or not the strings
are); the reference `getstr` returns is the one `findstr` returns for the
string's hash value. -/
theorem getstr_distinct_iff_hash_distinct (hash : String → Nat) (p : StrPool)
    (s1 s2 : String) (len1 len2 : Option Nat) :
    ((StrPool.getstr hash (StrPool.getstr hash p s1 len1).1 s2 len2).2
        ≠ (StrPool.getstr hash p s1 len1).2 ↔
      hash (StrPool.content s2 len2) % 2 ^ 32 ≠ hash (StrPool.content s1 len1) % 2 ^ 32) ∧
    ((StrPool.getstr hash (StrPool.getstr hash p s1 len1).1 s2 len2).2
        = (StrPool.getstr hash p s1 len1).2 ↔
      hash (StrPool.content s2 len2) % 2 ^ 32 = hash (StrPool.content s1 len1) % 2 ^ 32) ∧
    (StrPool.getstr hash p s1 len1).1.findstr (hash (StrPool.content s1 len1))
      = (StrPool.getstr hash p s1 len1).2 := by
  have hiff := StrPool.getstr_same_ref_iff hash p s1 s2 len1 len2
  refine ⟨not_congr hiff, hiff, ?_⟩
  obtain ⟨i, w, hp, hf, _⟩ := util_umap.get_val_defval_node p.m_pool
    (hash (StrPool.content s1 len1) % 2 ^ 32) (StrPool.content s1 len1)
  simp only [StrPool.findstr, StrPool.getstr_eq, util_umap.get_val_snd, Nat.mod_mod]
  rw [hf, hp]

/-- C6: `INVALID_ID` is the all-bits-set 32-bit value `2 ^ 32 - 1`, a `uint32_t`,
and `is_valid_id( id )` is false exactly for that id: it is true for every
other id, 0 included. -/
theorem is_valid_id_false_iff (id : Nat) :
    INVALID_ID = 0xFFFFFFFF ∧ INVALID_ID = 2 ^ 32 - 1 ∧ INVALID_ID < 2 ^ 32 ∧
    (is_valid_id id = false ↔ id = 2 ^ 32 - 1) ∧
    (is_valid_id id = true ↔ id ≠ 2 ^ 32 - 1) ∧
    is_valid_id 0 = true := by
  have h : INVALID_ID = 4294967295 := by decide
  refine ⟨h, h, by rw [h]; decide, ?_, ?_, by decide⟩
  · simp [is_valid_id, h]
  · simp [is_valid_id, h]

/-! ## Linkage and duration -/

theorem link_completion_eq (start completion : trace_event_t)
    (h : start.ts ≤ completion.ts) (hd : in_int64 (completion.ts - start.ts)) :
    link_completion start completion =
      some { completion with
        id_start := start.id
        duration := (completion.ts - start.ts).toNat } := by
  have hn : ¬ completion.ts - start.ts < 0 := by omega
  simp [link_completion, int64_sub, hd, hn]

theorem to_uint32_of_fit (x : Int) (h0 : 0 ≤ x) (h : x < 2 ^ 32) :
    to_uint32 x = x.toNat := by
  unfold to_uint32
  rw [Int.emod_eq_of_lt h0 h]

theorem and_mask_eq (f mask x : Nat) (h : mask &&& x = x) :
    (f &&& mask) &&& x = f &&& x := by
  rw [Nat.and_assoc, h]

theorem get_timeline_name_eq (e : trace_event_t) (defname : Option String) :
    e.get_timeline_name defname =
      if e.flags &&& TRACE_FLAG_IS_SW_QUEUE ≠ 0 then some "SW queue"
      else if e.flags &&& TRACE_FLAG_IS_HW_QUEUE ≠ 0 then some "HW queue"
      else if e.flags &&& TRACE_FLAG_FENCE_SIGNALED ≠ 0 then some "Execution"
      else defname := by
  simp only [trace_event_t.get_timeline_name, trace_event_t.is_fence_signaled, bne_iff_ne]

/-- C14: `get_timeline_name` resolves the label by a fixed priority.  It
returns "SW queue" when `IS_SW_QUEUE` is set, whatever the other bits;
otherwise "HW queue" when `IS_HW_QUEUE` is set; otherwise "Execution" when
`FENCE_SIGNALED` is set; otherwise `def`, so `def` for flags 0 and `NULL` when
`def` is the default `NULL`.  Two events whose flags agree on the bits 0x1000,
0x2000 and 0x4000 get the same label for the same `def`. -/
theorem get_timeline_name_priority (e : trace_event_t) (defname : Option String) :
    (e.flags &&& TRACE_FLAG_IS_SW_QUEUE ≠ 0 →
      e.get_timeline_name defname = some "SW queue") ∧
    (e.flags &&& TRACE_FLAG_IS_SW_QUEUE = 0 → e.flags &&& TRACE_FLAG_IS_HW_QUEUE ≠ 0 →
      e.get_timeline_name defname = some "HW queue") ∧
    (e.flags &&& TRACE_FLAG_IS_SW_QUEUE = 0 → e.flags &&& TRACE_FLAG_IS_HW_QUEUE = 0 →
      e.flags &&& TRACE_FLAG_FENCE_SIGNALED ≠ 0 →
      e.get_timeline_name defname = some "Execution") ∧
    (e.flags &&& TRACE_FLAG_IS_SW_QUEUE = 0 → e.flags &&& TRACE_FLAG_IS_HW_QUEUE = 0 →
      e.flags &&& TRACE_FLAG_FENCE_SIGNALED = 0 →
      e.get_timeline_name defname = defname) ∧
    (e.flags = 0 → e.get_timeline_name defname = defname) ∧
    (e.flags = 0 → e.get_timeline_name none = none) ∧
    (∀ e2 : trace_event_t, e2.flags &&& 0x7000 = e.flags &&& 0x7000 →
      e2.get_timeline_name defname = e.get_timeline_name defname) := by
  refine ⟨?_, ?_, ?_, ?_, ?_, ?_, ?_⟩
  · intro h1
    rw [get_timeline_name_eq, if_pos h1]
  · intro h1 h2
    rw [get_timeline_name_eq, if_neg (not_not.mpr h1), if_pos h2]
  · intro h1 h2 h3
    rw [get_timeline_name_eq, if_neg (not_not.mpr h1), if_neg (not_not.mpr h2), if_pos h3]
  · intro h1 h2 h3
    rw [get_timeline_name_eq, if_neg (not_not.mpr h1), if_neg (not_not.mpr h2),
      if_neg (not_not.mpr h3)]
  · intro h0
    rw [get_timeline_name_eq, h0]
    simp
  · intro h0
    rw [get_timeline_name_eq, h0]
    simp
  · intro e2 h
    have h1 : e2.flags &&& TRACE_FLAG_IS_SW_QUEUE = e.flags &&& TRACE_FLAG_IS_SW_QUEUE := by
      rw [← and_mask_eq e2.flags 0x7000 _ (by decide), ← and_mask_eq e.flags 0x7000 _ (by decide), h]
    have h2 : e2.flags &&& TRACE_FLAG_IS_HW_QUEUE = e.flags &&& TRACE_FLAG_IS_HW_QUEUE := by
      rw [← and_mask_eq e2.flags 0x7000 _ (by decide), ← and_mask_eq e.flags 0x7000 _ (by decide), h]
    have h3 : e2.flags &&& TRACE_FLAG_FENCE_SIGNALED
        = e.flags &&& TRACE_FLAG_FENCE_SIGNALED := by
      rw [← and_mask_eq e2.flags 0x7000 _ (by decide), ← and_mask_eq e.flags 0x7000 _ (by decide), h]
    rw [get_timeline_name_eq, get_timeline_name_eq, h1, h2, h3]

/-- The labels of the flags words 0x7000, 0x6000, 0x4000, 0x700 and 0. -/
theorem get_timeline_name_priority_witness :
    (event_with_flags 0x7000).get_timeline_name (some "gfx") = some "SW queue" ∧
    (event_with_flags 0x6000).get_timeline_name (some "gfx") = some "HW queue" ∧
    (event_with_flags 0x4000).get_timeline_name (some "gfx") = some "Execution" ∧
    (event_with_flags 0x700).get_timeline_name (some "gfx") = some "gfx" ∧
    (event_with_flags 0).get_timeline_name none = none :=
  ⟨(get_timeline_name_priority (event_with_flags 0x7000) (some "gfx")).1 (by decide),
   (get_timeline_name_priority (event_with_flags 0x6000) (some "gfx")).2.1
     (by decide) (by decide),
   (get_timeline_name_priority (event_with_flags 0x4000) (some "gfx")).2.2.1
     (by decide) (by decide) (by decide),
   (get_timeline_name_priority (event_with_flags 0x700) (some "gfx")).2.2.2.1
     (by decide) (by decide) (by decide),
   (get_timeline_name_priority (event_with_flags 0) none).2.2.2.2.2.1 (by decide)⟩

/-! ## The flag bits -/

theorem or_and_self (f x : Nat) : (f ||| x) &&& x = x := by
  apply Nat.eq_of_testBit_eq
  intro i
  rw [Nat.testBit_and, Nat.testBit_or]
  cases f.testBit i <;> cases x.testBit i <;> rfl

theorem test_flag_of_masks (f x y : Nat) (hx0 : x ≠ 0)
    (hnx : to_uint32 (-(x : Int) - 1) &&& x = 0) (hyx : y &&& x = 0)
    (hny : to_uint32 (-(y : Int) - 1) &&& x = x) :
    test_flag (set_flag f x) x = true ∧
    test_flag (clear_flag f x) x = false ∧
    test_flag (set_flag f y) x = test_flag f x ∧
    test_flag (clear_flag f y) x = test_flag f x := by
  unfold test_flag set_flag clear_flag
  refine ⟨?_, ?_, ?_, ?_⟩
  · rw [or_and_self]
    simpa using hx0
  · rw [Nat.and_assoc, hnx]
    simp
  · rw [Nat.and_distrib_right, hyx, Nat.or_zero]
  · rw [Nat.and_assoc, hny]

theorem trace_flags_single_bit (x : Nat) (hx : x ∈ trace_flags) :
    ∃ k, k < 32 ∧ x = 2 ^ k := by
  simp only [trace_flags, List.mem_cons, List.mem_singleton, List.not_mem_nil, or_false] at hx
  rcases hx with rfl | rfl | rfl | rfl | rfl | rfl
  · exact ⟨8, by decide, by decide⟩
  · exact ⟨9, by decide, by decide⟩
  · exact ⟨10, by decide, by decide⟩
  · exact ⟨12, by decide, by decide⟩
  · exact ⟨13, by decide, by decide⟩
  · exact ⟨14, by decide, by decide⟩

theorem set_flag_lt (f x : Nat) (hf : f < 2 ^ 32) (hx : x < 2 ^ 32) :
    set_flag f x < 2 ^ 32 :=
  Nat.or_lt_two_pow hf hx

theorem clear_flag_lt (f x : Nat) (hf : f < 2 ^ 32) : clear_flag f x < 2 ^ 32 :=
  Nat.lt_of_le_of_lt Nat.and_le_left hf

/-- C12: the six classification flags are pairwise disjoint single bits, and
each bit test is independent of the other flags.  For every 32-bit flags word
`f` and two distinct flags `x`, `y` of `trace_flag_type_t`: `x` is a power of
two below `2 ^ 32` and shares no bit with `y`; the test of `x` is true on
`f | x`, false on `f & ~x`, and gives on `f | y` and on `f & ~y` what it gives
on `f`; `f | x` and `f & ~x` are again 32-bit words.  The predicates
`is_ftrace_print`, `is_vblank`, `is_timeline` and `is_fence_signaled` are this
test for their flag. -/
theorem flag_tests_independent (f x y : Nat) (hf : f < 2 ^ 32)
    (hx : x ∈ trace_flags) (hy : y ∈ trace_flags) (hxy : x ≠ y) :
    (∃ k, k < 32 ∧ x = 2 ^ k) ∧ x &&& y = 0 ∧
    test_flag (set_flag f x) x = true ∧
    test_flag (clear_flag f x) x = false ∧
    test_flag (set_flag f y) x = test_flag f x ∧
    test_flag (clear_flag f y) x = test_flag f x ∧
    set_flag f x < 2 ^ 32 ∧ clear_flag f x < 2 ^ 32 ∧
    (∀ e : trace_event_t,
      e.is_ftrace_print = test_flag e.flags TRACE_FLAG_FTRACE_PRINT ∧
      e.is_vblank = test_flag e.flags TRACE_FLAG_IS_VBLANK ∧
      e.is_timeline = test_flag e.flags TRACE_FLAG_IS_TIMELINE ∧
      e.is_fence_signaled = test_flag e.flags TRACE_FLAG_FENCE_SIGNALED) := by
  obtain ⟨k, hk, hpow⟩ := trace_flags_single_bit x hx
  have hxlt : x < 2 ^ 32 := by
    rw [hpow]
    exact Nat.pow_lt_pow_right (by decide) hk
  have hmasks : x ≠ 0 ∧ x &&& y = 0 ∧ to_uint32 (-(x : Int) - 1) &&& x = 0 ∧
      y &&& x = 0 ∧ to_uint32 (-(y : Int) - 1) &&& x = x := by
    simp only [trace_flags, List.mem_cons, List.mem_singleton, List.not_mem_nil,
      or_false] at hx hy
    rcases hx with rfl | rfl | rfl | rfl | rfl | rfl <;>
      rcases hy with rfl | rfl | rfl | rfl | rfl | rfl <;>
      first
        | exact absurd rfl hxy
        | decide
  obtain ⟨hx0, hd, hnx, hyx, hny⟩ := hmasks
  obtain ⟨t1, t2, t3, t4⟩ := test_flag_of_masks f x y hx0 hnx hyx hny
  exact ⟨⟨k, hk, hpow⟩, hd, t1, t2, t3, t4, set_flag_lt f x hf hxlt, clear_flag_lt f x hf,
    fun _ => ⟨rfl, rfl, rfl, rfl⟩⟩

/-- On the flags word 0x2200 (vblank and HW queue): the vblank test is true
after setting and false after clearing the vblank flag, and setting or
clearing the HW queue flag leaves it as it was. -/
theorem flag_tests_independent_witness :
    (0x2200 : Nat) < 2 ^ 32 ∧ TRACE_FLAG_IS_VBLANK ∈ trace_flags ∧
    TRACE_FLAG_IS_HW_QUEUE ∈ trace_flags ∧ TRACE_FLAG_IS_VBLANK ≠ TRACE_FLAG_IS_HW_QUEUE ∧
    test_flag (set_flag 0x2200 TRACE_FLAG_IS_VBLANK) TRACE_FLAG_IS_VBLANK = true ∧
    test_flag (clear_flag 0x2200 TRACE_FLAG_IS_VBLANK) TRACE_FLAG_IS_VBLANK = false ∧
    test_flag (clear_flag 0x2200 TRACE_FLAG_IS_HW_QUEUE) TRACE_FLAG_IS_VBLANK
      = test_flag 0x2200 TRACE_FLAG_IS_VBLANK ∧
    clear_flag 0x2200 TRACE_FLAG_IS_HW_QUEUE = 0x200 :=
  ⟨by decide, by decide, by decide, by decide,
   (flag_tests_independent 0x2200 TRACE_FLAG_IS_VBLANK TRACE_FLAG_IS_HW_QUEUE
      (by decide) (by decide) (by decide) (by decide)).2.2.1,
   (flag_tests_independent 0x2200 TRACE_FLAG_IS_VBLANK TRACE_FLAG_IS_HW_QUEUE
      (by decide) (by decide) (by decide) (by decide)).2.2.2.1,
   (flag_tests_independent 0x2200 TRACE_FLAG_IS_VBLANK TRACE_FLAG_IS_HW_QUEUE
      (by decide) (by decide) (by decide) (by decide)).2.2.2.2.2.1,
   by decide⟩

/-! ## Sequences of calls -/

namespace umap_call

variable {K V : Type}

theorem mem_keys_of_find_some [DecidableEq K] (m : util_umap K V) (k : K) (i : Nat)
    (h : m.m_map.find k = some i) : k ∈ m.m_map.nodes.map Prod.fst := by
  by_contra hk
  have hn : m.m_map.find k = none := by
    unfold unordered_map.find
    rw [unordered_map.find_node_eq_none]
    intro e he hek
    exact hk (List.mem_map.mpr ⟨e, he, hek⟩)
  rw [hn] at h
  cases h

theorem keys_get_val_defval [DecidableEq K] (m : util_umap K V) (k : K) (d : V) :
    ((m.get_val_defval k d).1.m_map.nodes.map Prod.fst).toFinset
      = (m.m_map.nodes.map Prod.fst).toFinset ∪ {k} := by
  cases hf : m.m_map.find k with
  | none =>
    rw [util_umap.get_val_defval_of_find_none m k d hf]
    simp [List.toFinset_append]
  | some i =>
    have hk := mem_keys_of_find_some m k i hf
    rw [util_umap.get_val_defval_of_find_some m k d i hf]
    ext a
    simp only [Finset.mem_union, Finset.mem_singleton, List.mem_toFinset]
    constructor
    · exact Or.inl
    · rintro (h | rfl)
      · exact h
      · exact hk

theorem keys_set_val [DecidableEq K] (m : util_umap K V) (k : K) (v : V) :
    ((m.set_val k v).m_map.nodes.map Prod.fst).toFinset
      = (m.m_map.nodes.map Prod.fst).toFinset ∪ {k} := by
  cases hf : m.m_map.find k with
  | none =>
    rw [util_umap.set_val_of_find_none m k v hf]
    simp [List.toFinset_append]
  | some i =>
    have hk := mem_keys_of_find_some m k i hf
    rw [util_umap.set_val_of_find_some m k v i hf]
    simp only [unordered_map.assign_node_keys]
    ext a
    simp only [Finset.mem_union, Finset.mem_singleton, List.mem_toFinset]
    constructor
    · exact Or.inl
    · rintro (h | rfl)
      · exact h
      · exact hk

theorem WF_apply [DecidableEq K] (m : util_umap K V) (c : umap_call K V)
    (hwf : m.m_map.WF) : (apply m c).m_map.WF := by
  cases c with
  | call_get_val_defval key defval => exact util_umap.WF_get_val_defval m key defval hwf
  | call_get_val key =>
    show (m.get_val key).1.m_map.WF
    rw [util_umap.get_val_fst]
    exact hwf
  | call_set_val key val => exact util_umap.WF_set_val m key val hwf

theorem keys_apply [DecidableEq K] (m : util_umap K V) (c : umap_call K V) :
    ((apply m c).m_map.nodes.map Prod.fst).toFinset
      = (m.m_map.nodes.map Prod.fst).toFinset ∪ ([c].filterMap written_key).toFinset := by
  cases c with
  | call_get_val_defval key defval =>
    simpa [apply, written_key] using keys_get_val_defval m key defval
  | call_get_val key =>
    show ((m.get_val key).1.m_map.nodes.map Prod.fst).toFinset = _
    rw [util_umap.get_val_fst]
    simp [written_key]
  | call_set_val key val =>
    simpa [apply, written_key] using keys_set_val m key val

theorem run_calls_invariant [DecidableEq K] (calls : List (umap_call K V))
    (m : util_umap K V) (hwf : m.m_map.WF) :
    (run_calls m calls).m_map.WF ∧
    ((run_calls m calls).m_map.nodes.map Prod.fst).toFinset
      = (m.m_map.nodes.map Prod.fst).toFinset ∪ (calls.filterMap written_key).toFinset := by
  induction calls generalizing m with
  | nil => exact ⟨hwf, by simp [run_calls]⟩
  | cons c rest ih =>
    have hrun : run_calls m (c :: rest) = run_calls (apply m c) rest := rfl
    obtain ⟨h1, h2⟩ := ih (apply m c) (WF_apply m c hwf)
    rw [hrun]
    refine ⟨h1, ?_⟩
    rw [h2, keys_apply m c]
    have hsplit : (c :: rest).filterMap written_key
        = [c].filterMap written_key ++ rest.filterMap written_key := by
      rw [← List.filterMap_append]
      rfl
    rw [hsplit, List.toFinset_append, Finset.union_assoc]

theorem count_eq_count_keys [DecidableEq K] (l : List (K × V)) (k : K) :
    (l.filter (fun e => decide (e.1 = k))).length = (l.map Prod.fst).count k := by
  induction l with
  | nil => simp
  | cons e rest ih =>
    by_cases h : e.1 = k
    · simp [List.filter_cons, h, ih]
    · simp [List.filter_cons, h, ih, List.count_cons]

end umap_call

/-- C13: `util_umap` keeps exactly one entry per key.  After any finite sequence
of `get_val( key, defval )`, `get_val( key )` and `set_val( key, val )` calls on
an empty map no two entries have the same key (no key is counted more than
once), and the number of entries is the number of distinct keys passed to
`get_val( key, defval )` or `set_val`; the keys of the one-argument `get_val`
do not count. -/
theorem run_calls_one_entry_per_key {K V : Type} [DecidableEq K]
    (calls : List (umap_call K V)) :
    (run_calls util_umap.empty calls).m_map.WF ∧
    (∀ k, (run_calls util_umap.empty calls).m_map.count k ≤ 1) ∧
    (∀ k, (run_calls util_umap.empty calls).m_map.count k = 1 ↔
      k ∈ calls.filterMap umap_call.written_key) ∧
    (run_calls util_umap.empty calls).m_map.size = distinct_written_keys calls := by
  obtain ⟨hwf, hkeys⟩ :=
    umap_call.run_calls_invariant calls (util_umap.empty : util_umap K V) util_umap.WF_empty
  have hkeys2 : ((run_calls util_umap.empty calls).m_map.nodes.map Prod.fst).toFinset
      = (calls.filterMap umap_call.written_key).toFinset := by
    rw [hkeys]
    simp [util_umap.empty]
  have hle : ∀ k, (run_calls util_umap.empty calls).m_map.count k ≤ 1 := by
    intro k
    unfold unordered_map.count
    rw [umap_call.count_eq_count_keys]
    exact List.nodup_iff_count_le_one.mp hwf k
  refine ⟨hwf, hle, ?_, ?_⟩
  · intro k
    have hmem : k ∈ (run_calls util_umap.empty calls).m_map.nodes.map Prod.fst ↔
        k ∈ calls.filterMap umap_call.written_key := by
      rw [← List.mem_toFinset, hkeys2, List.mem_toFinset]
    rw [← hmem]
    unfold unordered_map.count
    rw [umap_call.count_eq_count_keys]
    constructor
    · intro h1
      exact List.count_pos_iff.mp (by omega)
    · intro hm
      have hpos := List.count_pos_iff.mpr hm
      have := List.nodup_iff_count_le_one.mp hwf k
      omega
  · unfold unordered_map.size distinct_written_keys
    rw [← List.card_toFinset, ← hkeys2, List.toFinset_card_of_nodup hwf, List.length_map]

end Gpuvis
